import Mathlib

/-!
# Verification of the type-safe builder (`src/main.rs`)

A shallow embedding of the Rust program: a builder for an `Item` with two
fields, using phantom type parameters (`Unset` / `Set`) to record at the type
level which fields have been initialized.  Field storage is `ManuallyDrop` and
may be uninitialized; the builder provides its own destructor.

Embedding choices:
* The phantom type parameters `A`, `B` of `ItemBuilder<A, B>` are carried as
  value-level fields `_a _b : MarkerTy` (the two marker types `Unset` and
  `Set` become the two constructors of `MarkerTy`; `is_set` compares the
  marker against `MarkerTy.Set`, mirroring the `TypeId` comparison).
* A field's raw, possibly-uninitialized storage is an `Option`: `none` models
  `std::mem::uninitialized()` storage that has never been written.
* Reading or destroying uninitialized storage is undefined behaviour in the
  source; operations therefore return `Option` and yield `none` exactly on
  those code paths.  Theorems show the `none` branches are unreachable from
  states the program can actually produce.
* Destruction of stored values is observable: operations return the list of
  destruction events they perform (`ManuallyDrop::drop` calls), in order.
  `construct` performs `std::mem::forget` on the builder and then moves the
  two values out with `ptr::read`, so it emits no destruction events.
-/

namespace TypesafeBuilder

/-- The two uninhabited marker types `Unset` and `Set` of the source, as the
two type identities the phantom parameters can take. -/
inductive MarkerTy where
  | Unset
  | Set
deriving DecidableEq, Repr

/-- `fn is_set<A>() -> bool { TypeId::of::<A>() == TypeId::of::<Set>() }`:
the type-identity query on a phantom parameter. -/
def is_set (A : MarkerTy) : Bool :=
  A == MarkerTy.Set

/-- `struct Item { a: String, b: Vec<i32> }`, the target object. -/
structure Item where
  a : String
  b : List Int
deriving DecidableEq, Repr

/-- `struct ItemBuilder<A, B>`: `a`/`b` are the `ManuallyDrop` storages
(`none` = uninitialized memory), `_a`/`_b` are the phantom parameters
(`PhantomData<A>` / `PhantomData<B>`). -/
structure ItemBuilder where
  a : Option String
  b : Option (List Int)
  _a : MarkerTy
  _b : MarkerTy
deriving DecidableEq, Repr

/-- One observable `ManuallyDrop::drop` call on a field's stored value. -/
inductive Event where
  | destroyA (s : String)
  | destroyB (v : List Int)
deriving DecidableEq, Repr

/-- `ItemBuilder::<Unset, Unset>::new()`: both storages uninitialized, both
phantom parameters `Unset`. -/
def ItemBuilder.new : ItemBuilder :=
  { a := none, b := none, _a := MarkerTy.Unset, _b := MarkerTy.Unset }

/-- `ItemBuilder::a(self, a: String) -> ItemBuilder<Set, B>`: if `is_set::<A>()`
then drop the previously stored value, store the new one, and relabel the
phantom parameter `A` to `Set` (the `transmute`).  `none` models the undefined
behaviour of dropping uninitialized storage. -/
def ItemBuilder.setA (self : ItemBuilder) (a : String) :
    Option (ItemBuilder × List Event) :=
  if is_set self._a then
    match self.a with
    | none => none
    | some old =>
        some ({ self with a := some a, _a := MarkerTy.Set }, [Event.destroyA old])
  else
    some ({ self with a := some a, _a := MarkerTy.Set }, [])

/-- `ItemBuilder::b(self, b: Vec<i32>) -> ItemBuilder<A, Set>`: same as
`setA` for the second field. -/
def ItemBuilder.setB (self : ItemBuilder) (b : List Int) :
    Option (ItemBuilder × List Event) :=
  if is_set self._b then
    match self.b with
    | none => none
    | some old =>
        some ({ self with b := some b, _b := MarkerTy.Set }, [Event.destroyB old])
  else
    some ({ self with b := some b, _b := MarkerTy.Set }, [])

/-- The availability gate of `construct`: the method lives in the impl block
`impl ItemBuilder<Set, Set>`, so it is dispatched only at phantom parameters
`(Set, Set)`. -/
def constructAvailable (self : ItemBuilder) : Prop :=
  self._a = MarkerTy.Set ∧ self._b = MarkerTy.Set

instance (self : ItemBuilder) : Decidable (constructAvailable self) :=
  inferInstanceAs (Decidable (_ ∧ _))

/-- Body of `ItemBuilder::<Set, Set>::construct(self) -> Item`: the builder is
`mem::forget`-ten (its destructor never runs, hence no destruction events) and
both storages are moved out by `ptr::read` into the `Item`.  Reading
uninitialized storage would be undefined behaviour (`none`). -/
def ItemBuilder.construct (self : ItemBuilder) : Option Item :=
  match self.a, self.b with
  | some a, some b => some { a := a, b := b }
  | _, _ => none

/-- `impl<A, B> Drop for ItemBuilder<A, B>`: destroy field `a`'s value when
`is_set::<A>()`, then field `b`'s value when `is_set::<B>()`.  Returns the
destruction events performed; `none` models dropping uninitialized storage. -/
def ItemBuilder.dropBuilder (self : ItemBuilder) : Option (List Event) :=
  match (if is_set self._a then
           match self.a with
           | none => none
           | some va => some [Event.destroyA va]
         else some []) with
  | none => none
  | some evsA =>
      match (if is_set self._b then
               match self.b with
               | none => none
               | some vb => some [Event.destroyB vb]
             else some []) with
      | none => none
      | some evsB => some (evsA ++ evsB)

/-- A setter call, for reasoning about arbitrary call sequences. -/
inductive Op where
  | opA (s : String)
  | opB (v : List Int)
deriving DecidableEq, Repr

/-- Apply one setter call. -/
def applyOp (self : ItemBuilder) : Op → Option (ItemBuilder × List Event)
  | Op.opA s => self.setA s
  | Op.opB v => self.setB v

/-- Run a sequence of setter calls from a given builder, accumulating the
destruction events in order. -/
def runOpsFrom (self : ItemBuilder) : List Op → Option (ItemBuilder × List Event)
  | [] => some (self, [])
  | op :: rest =>
      match applyOp self op with
      | none => none
      | some (b1, evs1) =>
          match runOpsFrom b1 rest with
          | none => none
          | some (b2, evs2) => some (b2, evs1 ++ evs2)

/-- Run a sequence of setter calls on a fresh builder. -/
def runOps (ops : List Op) : Option (ItemBuilder × List Event) :=
  runOpsFrom ItemBuilder.new ops

/-- The storage/marker invariant of §3 of the design: a field's storage holds
a live value iff its phantom parameter is `Set`. -/
def Inv (self : ItemBuilder) : Prop :=
  (self._a = MarkerTy.Set ↔ self.a.isSome = true) ∧
  (self._b = MarkerTy.Set ↔ self.b.isSome = true)

instance (self : ItemBuilder) : Decidable (Inv self) :=
  inferInstanceAs (Decidable (_ ∧ _))

/-- The value field `a` should hold after a call sequence, starting from
storage `init`: the most recently set value (last-write-wins). -/
def specAFrom (init : Option String) : List Op → Option String
  | [] => init
  | Op.opA s :: rest => specAFrom (some s) rest
  | Op.opB _ :: rest => specAFrom init rest

/-- The value field `b` should hold after a call sequence, starting from
storage `init`. -/
def specBFrom (init : Option (List Int)) : List Op → Option (List Int)
  | [] => init
  | Op.opA _ :: rest => specBFrom init rest
  | Op.opB v :: rest => specBFrom (some v) rest

/-- Whether a call sequence sets field `a` at least once. -/
def setsA : List Op → Bool
  | [] => false
  | Op.opA _ :: _ => true
  | Op.opB _ :: rest => setsA rest

/-- Whether a call sequence sets field `b` at least once. -/
def setsB : List Op → Bool
  | [] => false
  | Op.opA _ :: rest => setsB rest
  | Op.opB _ :: _ => true

/-- How many times the value `x` is stored into field `a` by the sequence. -/
def countStoresA (x : String) (ops : List Op) : Nat :=
  ops.count (Op.opA x)

/-- How many times the value `v` is stored into field `b` by the sequence. -/
def countStoresB (v : List Int) (ops : List Op) : Nat :=
  ops.count (Op.opB v)

/-- How many times the value `x` of field `a` is destroyed in an event list. -/
def countDestroysA (x : String) (evs : List Event) : Nat :=
  evs.count (Event.destroyA x)

/-- How many times the value `v` of field `b` is destroyed in an event list. -/
def countDestroysB (v : List Int) (evs : List Event) : Nat :=
  evs.count (Event.destroyB v)

/-! ## Helper lemmas -/

theorem is_set_iff (A : MarkerTy) : is_set A = true ↔ A = MarkerTy.Set := by
  cases A <;> simp [is_set]

theorem setA_of_unset {b : ItemBuilder} (h : b._a = MarkerTy.Unset) (x : String) :
    b.setA x = some ({ b with a := some x, _a := MarkerTy.Set }, []) := by
  simp [ItemBuilder.setA, is_set, h]

theorem setA_of_set {b : ItemBuilder} {old : String} (h : b._a = MarkerTy.Set)
    (ha : b.a = some old) (x : String) :
    b.setA x = some ({ b with a := some x, _a := MarkerTy.Set },
      [Event.destroyA old]) := by
  simp [ItemBuilder.setA, is_set, h, ha]

theorem setB_of_unset {b : ItemBuilder} (h : b._b = MarkerTy.Unset) (v : List Int) :
    b.setB v = some ({ b with b := some v, _b := MarkerTy.Set }, []) := by
  simp [ItemBuilder.setB, is_set, h]

theorem setB_of_set {b : ItemBuilder} {old : List Int} (h : b._b = MarkerTy.Set)
    (hb : b.b = some old) (v : List Int) :
    b.setB v = some ({ b with b := some v, _b := MarkerTy.Set },
      [Event.destroyB old]) := by
  simp [ItemBuilder.setB, is_set, h, hb]

theorem Inv.a_eq_none {b : ItemBuilder} (hb : Inv b) (h : b._a = MarkerTy.Unset) :
    b.a = none := by
  rcases hb with ⟨h1, _⟩
  cases ha : b.a with
  | none => rfl
  | some v => rw [h1.mpr (by simp [ha])] at h; cases h

theorem Inv.a_eq_some {b : ItemBuilder} (hb : Inv b) (h : b._a = MarkerTy.Set) :
    ∃ v, b.a = some v := by
  rcases hb with ⟨h1, _⟩
  cases ha : b.a with
  | none => rw [ha] at h1; simp at h1; exact absurd h h1
  | some v => exact ⟨v, rfl⟩

theorem Inv.b_eq_none {b : ItemBuilder} (hb : Inv b) (h : b._b = MarkerTy.Unset) :
    b.b = none := by
  rcases hb with ⟨_, h2⟩
  cases ha : b.b with
  | none => rfl
  | some v => rw [h2.mpr (by simp [ha])] at h; cases h

theorem Inv.b_eq_some {b : ItemBuilder} (hb : Inv b) (h : b._b = MarkerTy.Set) :
    ∃ v, b.b = some v := by
  rcases hb with ⟨_, h2⟩
  cases ha : b.b with
  | none => rw [ha] at h2; simp at h2; exact absurd h h2
  | some v => exact ⟨v, rfl⟩

@[simp] theorem countDestroysA_nil (x : String) : countDestroysA x [] = 0 := rfl

@[simp] theorem countDestroysB_nil (v : List Int) : countDestroysB v [] = 0 := rfl

@[simp] theorem countDestroysA_cons_destroyA (x old : String) (evs : List Event) :
    countDestroysA x (Event.destroyA old :: evs)
      = countDestroysA x evs + (if old = x then 1 else 0) := by
  simp [countDestroysA, List.count_cons]

@[simp] theorem countDestroysA_cons_destroyB (x : String) (w : List Int)
    (evs : List Event) :
    countDestroysA x (Event.destroyB w :: evs) = countDestroysA x evs := by
  simp [countDestroysA, List.count_cons]

@[simp] theorem countDestroysB_cons_destroyB (v w : List Int) (evs : List Event) :
    countDestroysB v (Event.destroyB w :: evs)
      = countDestroysB v evs + (if w = v then 1 else 0) := by
  simp [countDestroysB, List.count_cons]

@[simp] theorem countDestroysB_cons_destroyA (v : List Int) (old : String)
    (evs : List Event) :
    countDestroysB v (Event.destroyA old :: evs) = countDestroysB v evs := by
  simp [countDestroysB, List.count_cons]

@[simp] theorem countDestroysA_append (x : String) (l1 l2 : List Event) :
    countDestroysA x (l1 ++ l2) = countDestroysA x l1 + countDestroysA x l2 := by
  simp [countDestroysA, List.count_append]

@[simp] theorem countDestroysB_append (v : List Int) (l1 l2 : List Event) :
    countDestroysB v (l1 ++ l2) = countDestroysB v l1 + countDestroysB v l2 := by
  simp [countDestroysB, List.count_append]

@[simp] theorem countStoresA_nil (x : String) : countStoresA x [] = 0 := rfl

@[simp] theorem countStoresB_nil (v : List Int) : countStoresB v [] = 0 := rfl

@[simp] theorem countStoresA_cons_opA (x s : String) (ops : List Op) :
    countStoresA x (Op.opA s :: ops)
      = countStoresA x ops + (if s = x then 1 else 0) := by
  simp [countStoresA, List.count_cons]

@[simp] theorem countStoresA_cons_opB (x : String) (w : List Int) (ops : List Op) :
    countStoresA x (Op.opB w :: ops) = countStoresA x ops := by
  simp [countStoresA, List.count_cons]

@[simp] theorem countStoresB_cons_opB (v w : List Int) (ops : List Op) :
    countStoresB v (Op.opB w :: ops)
      = countStoresB v ops + (if w = v then 1 else 0) := by
  simp [countStoresB, List.count_cons]

@[simp] theorem countStoresB_cons_opA (v : List Int) (s : String) (ops : List Op) :
    countStoresB v (Op.opA s :: ops) = countStoresB v ops := by
  simp [countStoresB, List.count_cons]

/-- Workhorse: running any setter sequence from a builder satisfying the
storage/marker invariant succeeds, preserves the invariant, leaves each field
holding the most recently stored value, and destroys each stored value exactly
once except for the one still live at the end. -/
theorem runOpsFrom_spec (ops : List Op) : ∀ b : ItemBuilder, Inv b →
    ∃ b' evs, runOpsFrom b ops = some (b', evs)
      ∧ b'.a = specAFrom b.a ops
      ∧ b'.b = specBFrom b.b ops
      ∧ Inv b'
      ∧ (∀ x, countDestroysA x evs + (if b'.a = some x then 1 else 0)
            = countStoresA x ops + (if b.a = some x then 1 else 0))
      ∧ (∀ v, countDestroysB v evs + (if b'.b = some v then 1 else 0)
            = countStoresB v ops + (if b.b = some v then 1 else 0)) := by
  induction ops with
  | nil =>
      intro b hb
      exact ⟨b, [], rfl, rfl, rfl, hb, fun x => by simp [runOpsFrom],
        fun v => by simp [runOpsFrom]⟩
  | cons op rest ih =>
      intro b hb
      cases op with
      | opA s =>
          cases hA : b._a with
          | Unset =>
              have hnone : b.a = none := hb.a_eq_none hA
              obtain ⟨b', evs2, hrun, hA', hB', hinv', hcA, hcB⟩ :=
                ih { b with a := some s, _a := MarkerTy.Set } ⟨by simp, hb.2⟩
              refine ⟨b', evs2, ?_, ?_, ?_, hinv', ?_, ?_⟩
              · simp [runOpsFrom, applyOp, setA_of_unset hA s, hrun]
              · simpa [specAFrom] using hA'
              · simpa [specBFrom] using hB'
              · intro x
                have h := hcA x
                simp only [Option.some.injEq] at h
                by_cases hsx : s = x <;> simp [hsx, hnone] at h ⊢ <;> omega
              · intro v
                simpa using hcB v
          | Set =>
              obtain ⟨old, hsome⟩ := hb.a_eq_some hA
              obtain ⟨b', evs2, hrun, hA', hB', hinv', hcA, hcB⟩ :=
                ih { b with a := some s, _a := MarkerTy.Set } ⟨by simp, hb.2⟩
              refine ⟨b', Event.destroyA old :: evs2, ?_, ?_, ?_, hinv', ?_, ?_⟩
              · simp [runOpsFrom, applyOp, setA_of_set hA hsome s, hrun]
              · simpa [specAFrom] using hA'
              · simpa [specBFrom] using hB'
              · intro x
                have h := hcA x
                simp only [Option.some.injEq] at h
                by_cases hsx : s = x <;> by_cases hox : old = x <;>
                  simp [hsx, hox, hsome] at h ⊢ <;> omega
              · intro v
                simpa using hcB v
      | opB v =>
          cases hB : b._b with
          | Unset =>
              have hnone : b.b = none := hb.b_eq_none hB
              obtain ⟨b', evs2, hrun, hA', hB', hinv', hcA, hcB⟩ :=
                ih { b with b := some v, _b := MarkerTy.Set } ⟨hb.1, by simp⟩
              refine ⟨b', evs2, ?_, ?_, ?_, hinv', ?_, ?_⟩
              · simp [runOpsFrom, applyOp, setB_of_unset hB v, hrun]
              · simpa [specAFrom] using hA'
              · simpa [specBFrom] using hB'
              · intro x
                simpa using hcA x
              · intro w
                have h := hcB w
                simp only [Option.some.injEq] at h
                by_cases hvw : v = w <;> simp [hvw, hnone] at h ⊢ <;> omega
          | Set =>
              obtain ⟨old, hsome⟩ := hb.b_eq_some hB
              obtain ⟨b', evs2, hrun, hA', hB', hinv', hcA, hcB⟩ :=
                ih { b with b := some v, _b := MarkerTy.Set } ⟨hb.1, by simp⟩
              refine ⟨b', Event.destroyB old :: evs2, ?_, ?_, ?_, hinv', ?_, ?_⟩
              · simp [runOpsFrom, applyOp, setB_of_set hB hsome v, hrun]
              · simpa [specAFrom] using hA'
              · simpa [specBFrom] using hB'
              · intro x
                simpa using hcA x
              · intro w
                have h := hcB w
                simp only [Option.some.injEq] at h
                by_cases hvw : v = w <;> by_cases how : old = w <;>
                  simp [hvw, how, hsome] at h ⊢ <;> omega

theorem Inv_new : Inv ItemBuilder.new := by
  constructor <;> simp [ItemBuilder.new]

theorem specAFrom_isSome (ops : List Op) : ∀ init : Option String,
    (specAFrom init ops).isSome = (init.isSome || setsA ops) := by
  induction ops with
  | nil => intro init; simp [specAFrom, setsA]
  | cons op rest ih => intro init; cases op <;> simp [specAFrom, setsA, ih]

theorem specBFrom_isSome (ops : List Op) : ∀ init : Option (List Int),
    (specBFrom init ops).isSome = (init.isSome || setsB ops) := by
  induction ops with
  | nil => intro init; simp [specBFrom, setsB]
  | cons op rest ih => intro init; cases op <;> simp [specBFrom, setsB, ih]

theorem specA_isSome (ops : List Op) :
    (specAFrom none ops).isSome = setsA ops := by
  simpa using specAFrom_isSome ops none

theorem specB_isSome (ops : List Op) :
    (specBFrom none ops).isSome = setsB ops := by
  simpa using specBFrom_isSome ops none

/-- Running a setter sequence on a fresh builder. -/
theorem runOps_spec (ops : List Op) :
    ∃ b evs, runOps ops = some (b, evs)
      ∧ b.a = specAFrom none ops
      ∧ b.b = specBFrom none ops
      ∧ Inv b
      ∧ (∀ x, countDestroysA x evs + (if b.a = some x then 1 else 0)
            = countStoresA x ops)
      ∧ (∀ v, countDestroysB v evs + (if b.b = some v then 1 else 0)
            = countStoresB v ops) := by
  obtain ⟨b, evs, hrun, hA, hB, hinv, hcA, hcB⟩ :=
    runOpsFrom_spec ops ItemBuilder.new Inv_new
  refine ⟨b, evs, hrun, hA, hB, hinv, ?_, ?_⟩
  · intro x
    simpa [ItemBuilder.new] using hcA x
  · intro v
    simpa [ItemBuilder.new] using hcB v

@[simp] theorem countDestroysA_map_destroyB (x : String) (l : List (List Int)) :
    countDestroysA x (l.map Event.destroyB) = 0 := by
  induction l with
  | nil => rfl
  | cons w l ih => simp [ih]

@[simp] theorem countDestroysB_map_destroyA (v : List Int) (l : List String) :
    countDestroysB v (l.map Event.destroyA) = 0 := by
  induction l with
  | nil => rfl
  | cons w l ih => simp [ih]

@[simp] theorem countDestroysA_optA (x : String) (o : Option String) :
    countDestroysA x (o.toList.map Event.destroyA)
      = if o = some x then 1 else 0 := by
  cases o <;> simp

@[simp] theorem countDestroysB_optB (v : List Int) (o : Option (List Int)) :
    countDestroysB v (o.toList.map Event.destroyB)
      = if o = some v then 1 else 0 := by
  cases o <;> simp

/-- Under the invariant, dropping the builder produces exactly one destruction
event per live field, field `a` first. -/
theorem dropBuilder_of_inv {b : ItemBuilder} (hb : Inv b) :
    b.dropBuilder
      = some (b.a.toList.map Event.destroyA ++ b.b.toList.map Event.destroyB) := by
  cases hA : b._a <;> cases hB : b._b
  · have h1 := hb.a_eq_none hA
    have h2 := hb.b_eq_none hB
    simp [ItemBuilder.dropBuilder, is_set, hA, hB, h1, h2]
  · have h1 := hb.a_eq_none hA
    obtain ⟨vb, h2⟩ := hb.b_eq_some hB
    simp [ItemBuilder.dropBuilder, is_set, hA, hB, h1, h2]
  · obtain ⟨va, h1⟩ := hb.a_eq_some hA
    have h2 := hb.b_eq_none hB
    simp [ItemBuilder.dropBuilder, is_set, hA, hB, h1, h2]
  · obtain ⟨va, h1⟩ := hb.a_eq_some hA
    obtain ⟨vb, h2⟩ := hb.b_eq_some hB
    simp [ItemBuilder.dropBuilder, is_set, hA, hB, h1, h2]

theorem construct_of_some {b : ItemBuilder} {va : String} {vb : List Int}
    (h1 : b.a = some va) (h2 : b.b = some vb) :
    b.construct = some { a := va, b := vb } := by
  simp [ItemBuilder.construct, h1, h2]

/-! ## Claim theorems -/

/-- C7: the marker-identity query `is_set` is a total, deterministic,
side-effect-free Lean function of the type parameter alone (the `MarkerTy`
identity, never a runtime value of the uninhabited marker types): it returns
`true` at `Set` and `false` at `Unset`. -/
theorem is_set_spec :
    is_set MarkerTy.Set = true ∧ is_set MarkerTy.Unset = false :=
  ⟨rfl, rfl⟩

/-- C6: from a fresh builder, setting field `a` to `"incomplete"`, then field
`b` to the empty sequence, then constructing, yields an `Item` with
`a = "incomplete"` and `b` empty (the scenario of `main`). -/
theorem main_scenario :
    ∃ b evs item,
      runOps [Op.opA "incomplete", Op.opB []] = some (b, evs)
        ∧ b.construct = some item
        ∧ item.a = "incomplete" ∧ item.b = [] :=
  ⟨_, _, _, rfl, rfl, rfl, rfl⟩

/-- C9: setters on distinct fields commute: `new().a(x).b(y)` and
`new().b(y).a(x)` produce identical builders (same live contents and markers),
and constructing from either yields the same target object. -/
theorem setters_commute (x : String) (v : List Int) :
    ∃ b1 evs1 b2 evs2,
      runOps [Op.opA x, Op.opB v] = some (b1, evs1)
        ∧ runOps [Op.opB v, Op.opA x] = some (b2, evs2)
        ∧ b1 = b2
        ∧ b1.construct = b2.construct
        ∧ b1.a = some x ∧ b1.b = some v
        ∧ b1.construct = some { a := x, b := v } :=
  ⟨_, _, _, _, rfl, rfl, rfl, rfl, rfl, rfl, rfl⟩

/-- C10: the destructor releases fields in a fixed order: when both markers
are `Set` at drop time, field `a`'s value is destroyed strictly before field
`b`'s value. -/
theorem drop_order (b : ItemBuilder) (va : String) (vb : List Int)
    (hA : b._a = MarkerTy.Set) (hB : b._b = MarkerTy.Set)
    (ha : b.a = some va) (hbb : b.b = some vb) :
    b.dropBuilder = some [Event.destroyA va, Event.destroyB vb] := by
  simp [ItemBuilder.dropBuilder, is_set, hA, hB, ha, hbb]

theorem drop_order_witness :
    ItemBuilder.dropBuilder
        { a := some "p", b := some [3], _a := MarkerTy.Set, _b := MarkerTy.Set }
      = some [Event.destroyA "p", Event.destroyB [3]] :=
  drop_order _ "p" [3] rfl rfl rfl rfl

/-- C1: `construct` lives in the impl block `impl ItemBuilder<Set, Set>`, so
it is statically unavailable (never dispatched) on any builder with an `Unset`
marker; over all reachable builders its availability is exactly "both fields
set at least once"; and whenever it is available it succeeds, so the rejection
of incomplete builders is purely the static gate, never a runtime failure. -/
theorem construct_gate :
    (∀ b : ItemBuilder, (b._a = MarkerTy.Unset ∨ b._b = MarkerTy.Unset) →
        ¬ constructAvailable b)
    ∧ (∀ ops b evs, runOps ops = some (b, evs) →
        (constructAvailable b ↔ (setsA ops = true ∧ setsB ops = true)))
    ∧ (∀ b : ItemBuilder, Inv b → constructAvailable b →
        ∃ item, b.construct = some item) := by
  refine ⟨?_, ?_, ?_⟩
  · intro b h hav
    simp only [constructAvailable] at hav
    rcases h with h | h <;> rw [h] at hav <;> simp at hav
  · intro ops b evs hrun
    obtain ⟨b', evs', hrun', hA, hB, hinv, _, _⟩ := runOps_spec ops
    rw [hrun'] at hrun
    simp only [Option.some.injEq, Prod.mk.injEq] at hrun
    obtain ⟨rfl, rfl⟩ := hrun
    have hA' : b'._a = MarkerTy.Set ↔ setsA ops = true :=
      hinv.1.trans (by rw [hA, specA_isSome])
    have hB' : b'._b = MarkerTy.Set ↔ setsB ops = true :=
      hinv.2.trans (by rw [hB, specB_isSome])
    simp only [constructAvailable]
    exact and_congr hA' hB'
  · intro b hb hav
    simp only [constructAvailable] at hav
    obtain ⟨va, h1⟩ := hb.a_eq_some hav.1
    obtain ⟨vb, h2⟩ := hb.b_eq_some hav.2
    exact ⟨_, construct_of_some h1 h2⟩

theorem construct_gate_witness :
    (¬ constructAvailable ItemBuilder.new)
    ∧ (constructAvailable
          { a := some "x", b := some [], _a := MarkerTy.Set, _b := MarkerTy.Set }
        ↔ (setsA [Op.opA "x", Op.opB []] = true
            ∧ setsB [Op.opA "x", Op.opB []] = true))
    ∧ ∃ item, ItemBuilder.construct
          { a := some "x", b := some [], _a := MarkerTy.Set, _b := MarkerTy.Set }
        = some item :=
  ⟨construct_gate.1 ItemBuilder.new (Or.inl rfl),
   construct_gate.2.1 [Op.opA "x", Op.opB []] _ _ rfl,
   construct_gate.2.2 _ (by decide) (by decide)⟩

/-- C2: for every finite setter sequence on a fresh builder, the live fields
are exactly those set at least once, each holding the most recently set value
(`specAFrom` / `specBFrom` are the last-write-wins folds of the sequence), and
on each individual setter call whose field marker is already `Set` the
previously stored value is destroyed before the new value is stored. -/
theorem setter_sequences_last_write_wins :
    (∀ ops : List Op, ∃ b evs, runOps ops = some (b, evs)
        ∧ b.a = specAFrom none ops
        ∧ b.b = specBFrom none ops
        ∧ b.a.isSome = setsA ops
        ∧ b.b.isSome = setsB ops
        ∧ (b._a = MarkerTy.Set ↔ setsA ops = true)
        ∧ (b._b = MarkerTy.Set ↔ setsB ops = true))
    ∧ (∀ (c : ItemBuilder) (old x : String),
        c._a = MarkerTy.Set → c.a = some old →
        c.setA x = some ({ c with a := some x, _a := MarkerTy.Set },
          [Event.destroyA old]))
    ∧ (∀ (c : ItemBuilder) (old v : List Int),
        c._b = MarkerTy.Set → c.b = some old →
        c.setB v = some ({ c with b := some v, _b := MarkerTy.Set },
          [Event.destroyB old])) := by
  refine ⟨?_, fun c old x h1 h2 => setA_of_set h1 h2 x,
    fun c old v h1 h2 => setB_of_set h1 h2 v⟩
  intro ops
  obtain ⟨b, evs, hrun, hA, hB, hinv, _, _⟩ := runOps_spec ops
  refine ⟨b, evs, hrun, hA, hB, ?_, ?_, ?_, ?_⟩
  · rw [hA, specA_isSome]
  · rw [hB, specB_isSome]
  · exact hinv.1.trans (by rw [hA, specA_isSome])
  · exact hinv.2.trans (by rw [hB, specB_isSome])

theorem setter_sequences_last_write_wins_witness :
    ItemBuilder.setA
        { a := some "x", b := none, _a := MarkerTy.Set, _b := MarkerTy.Unset } "y"
      = some ({ a := some "y", b := none, _a := MarkerTy.Set, _b := MarkerTy.Unset },
          [Event.destroyA "x"]) :=
  setter_sequences_last_write_wins.2.1 _ "x" "y" rfl rfl

/-- C3: every value ever stored into a builder field is destroyed exactly once
over the whole lifecycle.  If the builder is discarded, the setter-sequence
events together with the destructor's events destroy each stored value exactly
once.  If the builder is consumed by `construct` (which forgets the builder,
so no destructor event is ever emitted for it), each stored value is either
destroyed exactly once by an overwriting setter or moved out exactly once into
the target object, whose fields are precisely the last values set. -/
theorem lifecycle_exactly_once (ops : List Op) :
    (∃ b evs devs, runOps ops = some (b, evs) ∧ b.dropBuilder = some devs
        ∧ (∀ x, countDestroysA x (evs ++ devs) = countStoresA x ops)
        ∧ (∀ v, countDestroysB v (evs ++ devs) = countStoresB v ops))
    ∧ (setsA ops = true → setsB ops = true →
        ∃ b evs item, runOps ops = some (b, evs) ∧ b.construct = some item
          ∧ some item.a = specAFrom none ops
          ∧ some item.b = specBFrom none ops
          ∧ (∀ x, countDestroysA x evs + (if item.a = x then 1 else 0)
                = countStoresA x ops)
          ∧ (∀ v, countDestroysB v evs + (if item.b = v then 1 else 0)
                = countStoresB v ops)) := by
  obtain ⟨b, evs, hrun, hA, hB, hinv, hcA, hcB⟩ := runOps_spec ops
  constructor
  · refine ⟨b, evs, _, hrun, dropBuilder_of_inv hinv, ?_, ?_⟩
    · intro x
      have h := hcA x
      simp only [countDestroysA_append, countDestroysA_optA,
        countDestroysA_map_destroyB, Nat.add_zero]
      omega
    · intro v
      have h := hcB v
      simp only [countDestroysB_append, countDestroysB_optB,
        countDestroysB_map_destroyA, Nat.zero_add]
      omega
  · intro hsA hsB
    have haSome : b.a.isSome = true := by rw [hA, specA_isSome, hsA]
    have hbSome : b.b.isSome = true := by rw [hB, specB_isSome, hsB]
    obtain ⟨va, hva⟩ := Option.isSome_iff_exists.mp haSome
    obtain ⟨vb, hvb⟩ := Option.isSome_iff_exists.mp hbSome
    refine ⟨b, evs, _, hrun, construct_of_some hva hvb, ?_, ?_, ?_, ?_⟩
    · rw [← hA, hva]
    · rw [← hB, hvb]
    · intro x
      have h := hcA x
      rw [hva] at h
      simp only [Option.some.injEq] at h
      simpa using h
    · intro v
      have h := hcB v
      rw [hvb] at h
      simp only [Option.some.injEq] at h
      simpa using h

theorem lifecycle_exactly_once_witness :
    ∃ b evs item,
      runOps [Op.opA "s", Op.opB [1, 2]] = some (b, evs)
        ∧ b.construct = some item
        ∧ some item.a = specAFrom none [Op.opA "s", Op.opB [1, 2]]
        ∧ some item.b = specBFrom none [Op.opA "s", Op.opB [1, 2]]
        ∧ (∀ x, countDestroysA x evs + (if item.a = x then 1 else 0)
              = countStoresA x [Op.opA "s", Op.opB [1, 2]])
        ∧ (∀ v, countDestroysB v evs + (if item.b = v then 1 else 0)
              = countStoresB v [Op.opA "s", Op.opB [1, 2]]) :=
  (lifecycle_exactly_once [Op.opA "s", Op.opB [1, 2]]).2 rfl rfl

/-- C4: the storage/marker invariant — a field's storage holds a live value
iff its marker is `Set` — is established by `new` (all storage uninitialized,
all markers `Unset`), holds in every builder reachable by setter sequences,
and is preserved by every operation; no operation ever reads or destroys
`Unset` storage: setters and the destructor succeed (never hit the
undefined-behaviour branch) on every builder satisfying the invariant, the
destructor emits no event for an `Unset` field, and `construct` succeeds
whenever its static gate admits it. -/
theorem storage_invariant :
    Inv ItemBuilder.new
    ∧ ItemBuilder.new.a = none ∧ ItemBuilder.new.b = none
    ∧ ItemBuilder.new._a = MarkerTy.Unset ∧ ItemBuilder.new._b = MarkerTy.Unset
    ∧ (∀ ops b evs, runOps ops = some (b, evs) → Inv b)
    ∧ (∀ (b : ItemBuilder) (op : Op), Inv b →
        ∃ b' evs, applyOp b op = some (b', evs) ∧ Inv b')
    ∧ (∀ b : ItemBuilder, Inv b → ∃ devs, b.dropBuilder = some devs
        ∧ (b._a = MarkerTy.Unset → ∀ x, Event.destroyA x ∉ devs)
        ∧ (b._b = MarkerTy.Unset → ∀ v, Event.destroyB v ∉ devs))
    ∧ (∀ b : ItemBuilder, Inv b → constructAvailable b →
        ∃ item, b.construct = some item) := by
  refine ⟨Inv_new, rfl, rfl, rfl, rfl, ?_, ?_, ?_, ?_⟩
  · intro ops b evs hrun
    obtain ⟨b', evs', hrun', _, _, hinv, _, _⟩ := runOps_spec ops
    rw [hrun'] at hrun
    simp only [Option.some.injEq, Prod.mk.injEq] at hrun
    obtain ⟨rfl, rfl⟩ := hrun
    exact hinv
  · intro b op hb
    cases op with
    | opA s =>
        cases hA : b._a with
        | Unset =>
            refine ⟨{ b with a := some s, _a := MarkerTy.Set }, [], ?_, by simp, hb.2⟩
            simpa [applyOp] using setA_of_unset hA s
        | Set =>
            obtain ⟨old, ho⟩ := hb.a_eq_some hA
            refine ⟨{ b with a := some s, _a := MarkerTy.Set },
              [Event.destroyA old], ?_, by simp, hb.2⟩
            simpa [applyOp] using setA_of_set hA ho s
    | opB v =>
        cases hB : b._b with
        | Unset =>
            refine ⟨{ b with b := some v, _b := MarkerTy.Set }, [], ?_, hb.1, by simp⟩
            simpa [applyOp] using setB_of_unset hB v
        | Set =>
            obtain ⟨old, ho⟩ := hb.b_eq_some hB
            refine ⟨{ b with b := some v, _b := MarkerTy.Set },
              [Event.destroyB old], ?_, hb.1, by simp⟩
            simpa [applyOp] using setB_of_set hB ho v
  · intro b hb
    refine ⟨_, dropBuilder_of_inv hb, ?_, ?_⟩
    · intro hA x
      have h := hb.a_eq_none hA
      simp [h, List.mem_map]
    · intro hB v
      have h := hb.b_eq_none hB
      simp [h, List.mem_map]
  · intro b hb hav
    simp only [constructAvailable] at hav
    obtain ⟨va, h1⟩ := hb.a_eq_some hav.1
    obtain ⟨vb, h2⟩ := hb.b_eq_some hav.2
    exact ⟨_, construct_of_some h1 h2⟩

theorem storage_invariant_witness :
    ∃ b' evs, applyOp ItemBuilder.new (Op.opA "w") = some (b', evs) ∧ Inv b' :=
  storage_invariant.2.2.2.2.2.2.1 ItemBuilder.new (Op.opA "w") (by decide)

/-- C5: discarding an unconsumed builder destroys exactly the values of the
fields whose marker is `Set` and does nothing to `Unset` fields: each live
value is destroyed exactly once, a builder with zero fields set performs zero
destructions, and a builder with exactly one field set destroys exactly that
one field's value. -/
theorem drop_destroys_set_fields (b : ItemBuilder) (hb : Inv b) :
    ∃ devs, b.dropBuilder = some devs
      ∧ (∀ x, countDestroysA x devs = if b.a = some x then 1 else 0)
      ∧ (∀ v, countDestroysB v devs = if b.b = some v then 1 else 0)
      ∧ (b._a = MarkerTy.Unset ∧ b._b = MarkerTy.Unset → devs = [])
      ∧ (b._a = MarkerTy.Set ∧ b._b = MarkerTy.Unset →
          ∃ va, b.a = some va ∧ devs = [Event.destroyA va])
      ∧ (b._a = MarkerTy.Unset ∧ b._b = MarkerTy.Set →
          ∃ vb, b.b = some vb ∧ devs = [Event.destroyB vb]) := by
  refine ⟨_, dropBuilder_of_inv hb, ?_, ?_, ?_, ?_, ?_⟩
  · intro x
    simp
  · intro v
    simp
  · rintro ⟨hA, hB⟩
    simp [hb.a_eq_none hA, hb.b_eq_none hB]
  · rintro ⟨hA, hB⟩
    obtain ⟨va, h1⟩ := hb.a_eq_some hA
    exact ⟨va, h1, by simp [h1, hb.b_eq_none hB]⟩
  · rintro ⟨hA, hB⟩
    obtain ⟨vb, h2⟩ := hb.b_eq_some hB
    exact ⟨vb, h2, by simp [h2, hb.a_eq_none hA]⟩

theorem drop_destroys_set_fields_witness :
    ∃ devs, ItemBuilder.dropBuilder
        { a := some "s", b := none, _a := MarkerTy.Set, _b := MarkerTy.Unset }
      = some devs
      ∧ (∀ x, countDestroysA x devs
            = if (some "s" : Option String) = some x then 1 else 0)
      ∧ (∀ v, countDestroysB v devs
            = if (none : Option (List Int)) = some v then 1 else 0)
      ∧ (MarkerTy.Set = MarkerTy.Unset ∧ MarkerTy.Unset = MarkerTy.Unset →
          devs = [])
      ∧ (MarkerTy.Set = MarkerTy.Set ∧ MarkerTy.Unset = MarkerTy.Unset →
          ∃ va, (some "s" : Option String) = some va
            ∧ devs = [Event.destroyA va])
      ∧ (MarkerTy.Set = MarkerTy.Unset ∧ MarkerTy.Unset = MarkerTy.Set →
          ∃ vb, (none : Option (List Int)) = some vb
            ∧ devs = [Event.destroyB vb]) :=
  drop_destroys_set_fields
    { a := some "s", b := none, _a := MarkerTy.Set, _b := MarkerTy.Unset }
    (by decide)

/-- C8: each setter mutates only its own field: the other field's marker and
stored value are unchanged, the setter always succeeds on builders satisfying
the invariant, and its only side effect is the destruction of at most one
prior value of the field being set (exactly the previously stored one, and
none when the field was `Unset`). -/
theorem setter_frame :
    (∀ (b : ItemBuilder) (x : String), Inv b →
        ∃ b' evs, b.setA x = some (b', evs)
          ∧ b'.b = b.b ∧ b'._b = b._b
          ∧ b'.a = some x ∧ b'._a = MarkerTy.Set
          ∧ (∀ v, Event.destroyB v ∉ evs)
          ∧ evs.length ≤ 1
          ∧ (b._a = MarkerTy.Unset → evs = [])
          ∧ (∀ old, b.a = some old → evs = [Event.destroyA old]))
    ∧ (∀ (b : ItemBuilder) (v : List Int), Inv b →
        ∃ b' evs, b.setB v = some (b', evs)
          ∧ b'.a = b.a ∧ b'._a = b._a
          ∧ b'.b = some v ∧ b'._b = MarkerTy.Set
          ∧ (∀ x, Event.destroyA x ∉ evs)
          ∧ evs.length ≤ 1
          ∧ (b._b = MarkerTy.Unset → evs = [])
          ∧ (∀ old, b.b = some old → evs = [Event.destroyB old])) := by
  constructor
  · intro b x hb
    cases hA : b._a with
    | Unset =>
        have hnone := hb.a_eq_none hA
        refine ⟨_, _, setA_of_unset hA x, rfl, rfl, rfl, rfl, by simp, by simp,
          fun _ => rfl, ?_⟩
        intro old h
        rw [hnone] at h
        cases h
    | Set =>
        obtain ⟨old0, ho⟩ := hb.a_eq_some hA
        refine ⟨_, _, setA_of_set hA ho x, rfl, rfl, rfl, rfl, by simp, by simp,
          ?_, ?_⟩
        · intro h
          exact absurd h (by decide)
        · intro old h
          rw [ho] at h
          simp only [Option.some.injEq] at h
          rw [h]
  · intro b v hb
    cases hB : b._b with
    | Unset =>
        have hnone := hb.b_eq_none hB
        refine ⟨_, _, setB_of_unset hB v, rfl, rfl, rfl, rfl, by simp, by simp,
          fun _ => rfl, ?_⟩
        intro old h
        rw [hnone] at h
        cases h
    | Set =>
        obtain ⟨old0, ho⟩ := hb.b_eq_some hB
        refine ⟨_, _, setB_of_set hB ho v, rfl, rfl, rfl, rfl, by simp, by simp,
          ?_, ?_⟩
        · intro h
          exact absurd h (by decide)
        · intro old h
          rw [ho] at h
          simp only [Option.some.injEq] at h
          rw [h]

theorem setter_frame_witness :
    ∃ b' evs, ItemBuilder.new.setA "z" = some (b', evs)
      ∧ b'.b = ItemBuilder.new.b ∧ b'._b = ItemBuilder.new._b
      ∧ b'.a = some "z" ∧ b'._a = MarkerTy.Set
      ∧ (∀ v, Event.destroyB v ∉ evs)
      ∧ evs.length ≤ 1
      ∧ (ItemBuilder.new._a = MarkerTy.Unset → evs = [])
      ∧ (∀ old, ItemBuilder.new.a = some old → evs = [Event.destroyA old]) :=
  setter_frame.1 ItemBuilder.new "z" (by decide)

end TypesafeBuilder
